import Mathlib

/-!
# Info2-Cpp-SmartPointers: smart-pointer and thread examples

A shallow embedding of the five example programs `SmartPointer_0.cpp` ..
`SmartPointer_4.cpp`.  The programs are straight-line `main` functions over
the C++ standard library, so the embedding has two layers:

* `Cpp`: the semantics of the library operations the programs call
  (`std::make_unique`, `std::move` on a `unique_ptr`, `std::make_shared`,
  the `shared_ptr` copy constructor, `use_count`, the smart-pointer
  destructors, `strcpy`, `operator<<` on `std::cout`), over an explicit heap
  and an explicit output stream;
* one namespace per source file holding the translation of that file
  (`Test`, `increment`, `main`), statement by statement.

The two threaded programs are embedded as small-step transition systems
whose steps are interleaved by an arbitrary schedule.
-/

namespace Cpp

/-- What is inserted into `std::cout` by one `operator<<` call. -/
inductive Tok where
  | str (s : String)
  | cstr (bytes : List Nat)
  | int (v : Int)
  | endl
  deriving DecidableEq, Repr

/-- Text of a `char` sequence (the programs only hold ASCII). -/
def textOf (bytes : List Nat) : String :=
  String.mk (bytes.map Char.ofNat)

/-- The characters one token puts on the terminal. -/
def Tok.text : Tok → String
  | .str s => s
  | .cstr bs => textOf bs
  | .int v => toString v
  | .endl => "\n"

/-- The text on the terminal after a sequence of insertions. -/
def render (out : List Tok) : String :=
  out.foldl (fun acc t => acc ++ t.text) ""

/-- Objects the programs place on the heap. -/
inductive Obj where
  | Test
  | chars (bytes : List Nat)
  deriving DecidableEq, Repr

/-- One heap allocation. `plain` is storage obtained by `make_unique` (no
control block), `counted` is storage obtained by `make_shared` (object
together with its control block and use count), `freed` is storage that has
been released. -/
inductive Cell where
  | freed
  | plain (o : Obj)
  | counted (uses : Nat) (o : Obj)
  deriving DecidableEq, Repr

/-- Program state of a single-threaded example: the heap, standard output,
and `room`, the number of bytes of array storage the free store can still
provide. A request for more than `room` bytes cannot be satisfied. -/
structure World where
  heap : List Cell
  out : List Tok
  room : Nat
  deriving DecidableEq, Repr

/-- State at entry of `main` on a machine whose free store can provide
`room` bytes. -/
def World.start (room : Nat) : World := { heap := [], out := [], room := room }

/-- State at entry of `main` used for the runs of the three programs: a
free store of 4 GiB. The runs are the same for every free store that can
satisfy the one request of 20 bytes that `SmartPointer_0` makes. -/
def World.init : World := World.start 4294967296

/-- Exceptions a library call can raise. -/
inductive Exn where
  | bad_alloc
  | system_error
  deriving DecidableEq, Repr

/-- Result of a C++ operation: it returns normally, it raises an exception,
or its behaviour is undefined by the language. -/
inductive Outcome (α : Type) where
  | returns (a : α)
  | throws (e : Exn)
  | undefined
  deriving DecidableEq, Repr

/-- Sequencing of operations. -/
def Outcome.bind {α β : Type} (x : Outcome α) (f : α → Outcome β) : Outcome β :=
  match x with
  | .returns a => f a
  | .throws e => .throws e
  | .undefined => .undefined

/-- Insert one token into `std::cout`. -/
def cout (w : World) (t : Tok) : World :=
  { w with out := w.out ++ [t] }

/-- Allocate a fresh cell; its address is its index in the heap. -/
def alloc (w : World) (c : Cell) : Nat × World :=
  (w.heap.length, { w with heap := w.heap ++ [c] })

/-- The cell at an address (`freed` for an address never allocated). -/
def cellAt (w : World) (a : Nat) : Cell :=
  w.heap.getD a .freed

/-- Overwrite the cell at an address. -/
def setCell (w : World) (a : Nat) (c : Cell) : World :=
  { w with heap := w.heap.set a c }

/-! ### `struct Test` (SmartPointer_1.cpp:4-7, SmartPointer_2.cpp:4-7) -/

namespace Test

/-- Constructor `Test() { std::cout << "Construido\n"; }`. -/
def ctor (w : World) : World :=
  cout w (.str "Construido\n")

/-- Destructor `~Test() { std::cout << "Destruido\n"; }`. -/
def dtor (w : World) : World :=
  cout w (.str "Destruido\n")

end Test

/-- Destructor call made by a delete expression on an object. Only `Test`
has a user-written destructor; a `char[]` has none. -/
def Obj.destroy : Obj → World → World
  | .Test, w => Test.dtor w
  | .chars _, w => w

/-- Bytes of array storage an object occupies. The one `Test` object of
`SmartPointer_1` and `SmartPointer_2` is a fixed-size request that is taken
to be granted and is not counted against `room`. -/
def Obj.arrayBytes : Obj → Nat
  | .Test => 0
  | .chars bs => bs.length

/-- Return array storage to the free store. -/
def release (w : World) (n : Nat) : World :=
  { w with room := w.room + n }

/-! ### `std::unique_ptr` -/

/-- A `std::unique_ptr`: the address of the storage it owns, `none` when it
holds the null pointer. -/
abbrev unique_ptr := Option Nat

/-- A raw `char*`: an allocation and an offset into it. -/
structure Loc where
  addr : Nat
  off : Nat
  deriving DecidableEq, Repr

/-- A raw pointer, `none` for `nullptr`. -/
abbrev Ptr := Option Loc

/-- Call `std::make_unique<Test>()`: allocate, then run the constructor. The
request is for one object of fixed size and is taken to be granted. -/
def make_unique_Test (w : World) : unique_ptr × World :=
  let r := alloc w (.plain .Test)
  (some r.1, Test.ctor r.2)

/-- Call `std::make_unique<char[]>(n)`: an array of `n` value-initialised
(zero) characters taken from the free store, or `std::bad_alloc` when the
free store cannot provide `n` bytes. -/
def make_unique_chars (n : Nat) (w : World) : Outcome (unique_ptr × World) :=
  if n ≤ w.room then
    let r := alloc { w with room := w.room - n } (.plain (.chars (List.replicate n 0)))
    .returns (some r.1, r.2)
  else .throws .bad_alloc

/-- Move construction `std::unique_ptr<T> dst = std::move(src)`. The result
is the pair (value left in `src`, value of the new handle `dst`). -/
def unique_ptr.move (src : unique_ptr) : unique_ptr × unique_ptr :=
  (none, src)

/-- Member `get()`: pointer to the first element of the owned storage. -/
def unique_ptr.get (p : unique_ptr) : Ptr :=
  p.map fun a => { addr := a, off := 0 }

/-- Destructor `~unique_ptr()`: deletes the owned object, if any, and
returns its storage to the free store. Deleting storage that is not a live
`make_unique` allocation is undefined. -/
def unique_ptr.dtor (p : unique_ptr) (w : World) : Outcome World :=
  match p with
  | none => .returns w
  | some a =>
    match cellAt w a with
    | .plain o => .returns (release (setCell (o.destroy w) a .freed) o.arrayBytes)
    | _ => .undefined

/-- Number of characters of the array a handle owns (0 for an empty handle). -/
def unique_ptr.capacity (p : unique_ptr) (w : World) : Nat :=
  match p with
  | none => 0
  | some a =>
    match cellAt w a with
    | .plain (.chars bs) => bs.length
    | _ => 0

/-! ### `std::shared_ptr` -/

/-- A `std::shared_ptr`: the address of the shared storage (object and
control block), `none` when empty. -/
abbrev shared_ptr := Option Nat

/-- Call `std::make_shared<Test>()`: allocate object and control block with
use count 1, then run the constructor. The request is for one object of
fixed size and is taken to be granted. -/
def make_shared_Test (w : World) : shared_ptr × World :=
  let r := alloc w (.counted 1 .Test)
  (some r.1, Test.ctor r.2)

/-- Copy construction `std::shared_ptr<T> dst = src`: the new handle shares
the storage and the use count goes up by one. -/
def shared_ptr.copy (src : shared_ptr) (w : World) : Outcome (shared_ptr × World) :=
  match src with
  | none => .returns (none, w)
  | some a =>
    match cellAt w a with
    | .counted n o => .returns (some a, setCell w a (.counted (n + 1) o))
    | _ => .undefined

/-- Member `use_count()`. -/
def shared_ptr.use_count (p : shared_ptr) (w : World) : Outcome Int :=
  match p with
  | none => .returns 0
  | some a =>
    match cellAt w a with
    | .counted n _ => .returns n
    | _ => .undefined

/-- Destructor `~shared_ptr()`: the use count goes down by one, and the
handle that takes it from 1 to 0 destroys the object and frees the storage. -/
def shared_ptr.dtor (p : shared_ptr) (w : World) : Outcome World :=
  match p with
  | none => .returns w
  | some a =>
    match cellAt w a with
    | .counted (n + 1) o =>
      if n = 0 then .returns (setCell (o.destroy w) a .freed)
      else .returns (setCell w a (.counted n o))
    | _ => .undefined

/-- Use count stored in the control block at an address (0 when the storage
is not, or no longer, a shared allocation). -/
def refcount (w : World) (a : Nat) : Nat :=
  match cellAt w a with
  | .counted n _ => n
  | _ => 0

/-! ### Character arrays: `strcpy` and `operator<<(const char*)` -/

/-- The array a string literal denotes: its characters and the final NUL. -/
def literal (s : String) : List Nat :=
  s.toList.map Char.toNat ++ [0]

/-- Store one character through a pointer. Undefined outside a live array. -/
def store (w : World) (l : Loc) (b : Nat) : Outcome World :=
  match cellAt w l.addr with
  | .plain (.chars bs) =>
    if l.off < bs.length then
      .returns (setCell w l.addr (.plain (.chars (bs.set l.off b))))
    else .undefined
  | _ => .undefined

/-- Loop of `strcpy`, `while ((*d++ = *s++) != 0);`, reading the source
array `src`. Running off the end of the source array is undefined. -/
def strcpyLoop (w : World) (d : Loc) : List Nat → Outcome World
  | [] => .undefined
  | b :: rest =>
    (store w d b).bind fun w1 =>
      if b = 0 then .returns w1
      else strcpyLoop w1 { addr := d.addr, off := d.off + 1 } rest

/-- Call `strcpy(dst, src)`. There is no capacity argument and no check. -/
def strcpy (w : World) (dst : Ptr) (src : List Nat) : Outcome World :=
  match dst with
  | none => .undefined
  | some d => strcpyLoop w d src

/-- Characters of the C string starting a byte sequence, up to but not
including the first NUL; `none` when there is no NUL. -/
def cstring : List Nat → Option (List Nat)
  | [] => none
  | b :: rest => if b = 0 then some [] else (cstring rest).map (b :: ·)

/-- The C string a pointer designates. -/
def cstrAt (w : World) (p : Ptr) : Outcome (List Nat) :=
  match p with
  | none => .undefined
  | some l =>
    match cellAt w l.addr with
    | .plain (.chars bs) =>
      match cstring (bs.drop l.off) with
      | some s => .returns s
      | none => .undefined
    | _ => .undefined

/-- Insertion `std::cout << p` of a `char*`. -/
def coutCStr (w : World) (p : Ptr) : Outcome World :=
  (cstrAt w p).bind fun s => .returns (cout w (.cstr s))

end Cpp

/-! ## SmartPointer_0.cpp -/

namespace SmartPointer_0
open Cpp

/-- Lines 7-13 of `main`: the statements before `return 0`, yielding the
local `texto` and the state. -/
def body (w : World) : Outcome (unique_ptr × World) :=
  (make_unique_chars 20 w).bind fun r =>
  let texto := r.1
  (strcpy r.2 texto.get (literal "Hola, mundo!")).bind fun w1 =>
  (coutCStr (cout w1 (.str "Texto almacenado: ")) texto.get).bind fun w2 =>
  .returns (texto, cout w2 .endl)

/-- Function `main`: the body, then the destructor of `texto` at scope exit,
returning 0. -/
def main (w : World) : Outcome (Int × World) :=
  (body w).bind fun r =>
  (r.1.dtor r.2).bind fun w1 =>
  .returns (0, w1)

end SmartPointer_0

/-! ## SmartPointer_1.cpp -/

namespace SmartPointer_1
open Cpp

/-- Lines 10-11 of `main`: the two declarations, yielding the locals
`ptr1`, `ptr2` and the state. -/
def body (w : World) : unique_ptr × unique_ptr × World :=
  let r := make_unique_Test w
  let m := unique_ptr.move r.1
  (m.1, m.2, r.2)

/-- Function `main`: the body, then the destructors of the locals in
reverse order of declaration (`ptr2`, then `ptr1`), returning 0. -/
def main (w : World) : Outcome (Int × World) :=
  let b := body w
  (b.2.1.dtor b.2.2).bind fun w1 =>
  (b.1.dtor w1).bind fun w2 =>
  .returns (0, w2)

end SmartPointer_1

/-! ## SmartPointer_2.cpp -/

namespace SmartPointer_2
open Cpp

/-- Lines 10-12 of `main`: the statements before `return 0`, yielding the
locals `ptr1`, `ptr2`, the value returned by `use_count()` and the state. -/
def body (w : World) : Outcome (shared_ptr × shared_ptr × Int × World) :=
  let r := make_shared_Test w
  let ptr1 := r.1
  (ptr1.copy r.2).bind fun c =>
  let ptr2 := c.1
  (ptr1.use_count c.2).bind fun n =>
  .returns (ptr1, ptr2, n,
    cout (cout (cout c.2 (.str "Contador de referencias: ")) (.int n)) .endl)

/-- Function `main`: the body, then the destructors of the locals in
reverse order of declaration (`ptr2`, then `ptr1`), returning 0. -/
def main (w : World) : Outcome (Int × World) :=
  (body w).bind fun b =>
  (b.2.1.dtor b.2.2.2).bind fun w1 =>
  (b.1.dtor w1).bind fun w2 =>
  .returns (0, w2)

end SmartPointer_2

/-! ## Threads

`SmartPointer_3.cpp` and `SmartPointer_4.cpp` run three threads: `main` and
the two workers `t1`, `t2` executing `increment`. Each thread is a
small-step machine; a step is one shared-memory access, one mutex operation
or one insertion into `std::cout`. A schedule names, step by step, the
thread that moves. -/

namespace Threads

/-- The worker threads `t1` and `t2` declared in `main`. -/
inductive Tid where
  | t1
  | t2
  deriving DecidableEq, Repr

/-- A thread of the process. -/
inductive Proc where
  | main
  | worker (t : Tid)
  deriving DecidableEq, Repr

/-- What one `operator<<` call inserts into `std::cout`; `id` is the value
of `std::this_thread::get_id()`. -/
inductive Tok where
  | str (s : String)
  | id (t : Tid)
  | int (v : Int)
  | endl
  deriving DecidableEq, Repr

/-- Program counter of `main` (identical in both files). -/
inductive MainPc where
  | spawn1
  | spawn2
  | join1
  | join2
  | out0
  | out1
  | out2
  | returned
  deriving DecidableEq, Repr

/-- The tokens of one progress line
`"Thread " << id << " incrementa a " << value << std::endl`. -/
def line (t : Tid) (v : Int) : List Tok :=
  [.str "Thread ", .id t, .str " incrementa a ", .int v, .endl]

/-- The tokens of the last line `"Valor final: " << value << std::endl`. -/
def finalLine (v : Int) : List Tok :=
  [.str "Valor final: ", .int v, .endl]

/-- Value of a 32-bit `int` after wrap-around. -/
def wrap32 (v : Int) : Int :=
  (v + 2147483648) % 4294967296 - 2147483648

end Threads

/-! ## SmartPointer_3.cpp: increments under a mutex -/

namespace SmartPointer_3
open Threads

/-- Program counter of a thread running `increment`. -/
inductive Pc where
  | idle
  | test
  | lock
  | load
  | store
  | out0
  | out1
  | out2
  | out3
  | out4
  | unlock
  | done
  deriving DecidableEq, Repr

/-- Locals of a thread running `increment`: where it is, the loop variable
`i`, and the value read by the pending `(*sharedData)++`. -/
structure Worker where
  pc : Pc
  i : Nat
  tmp : Int
  deriving DecidableEq, Repr

/-- Process state: the `int` behind `sharedData`, the owner of `mtx`, the
two workers, the position of `main`, and what has reached `std::cout`. -/
structure State where
  sharedData : Int
  mtx : Option Tid
  w1 : Worker
  w2 : Worker
  mainPc : MainPc
  out : List Tok
  deriving DecidableEq, Repr

/-- State after the globals are initialised (lines 6-7) and before `main`. -/
def init : State :=
  { sharedData := 0, mtx := none,
    w1 := { pc := .idle, i := 0, tmp := 0 },
    w2 := { pc := .idle, i := 0, tmp := 0 },
    mainPc := .spawn1, out := [] }

/-- Locals of a worker. -/
def State.worker (s : State) : Tid → Worker
  | .t1 => s.w1
  | .t2 => s.w2

/-- Update the locals of a worker. -/
def State.setWorker (s : State) (t : Tid) (w : Worker) : State :=
  match t with
  | .t1 => { s with w1 := w }
  | .t2 => { s with w2 := w }

/-- One step of thread `t` in `increment` (lines 9-15); `none` when the
thread cannot move (not started, returned, or waiting for `mtx`).

* `test`: the loop condition `i < 5`;
* `lock`: the `lock_guard` constructor, possible only while `mtx` is free;
* `load`, `store`: the read and the write of `(*sharedData)++` on the
  plain `int`;
* `out0` .. `out4`: the five insertions of line 13, `out3` reading
  `*sharedData`;
* `unlock`: the `lock_guard` destructor at the end of the loop body,
  followed by `i++`. -/
def increment (t : Tid) (s : State) : Option State :=
  let w := s.worker t
  match w.pc with
  | .idle => none
  | .test => some (s.setWorker t { w with pc := if w.i < 5 then .lock else .done })
  | .lock =>
    match s.mtx with
    | none => some (State.setWorker { s with mtx := some t } t { w with pc := .load })
    | some _ => none
  | .load => some (s.setWorker t { w with pc := .store, tmp := s.sharedData })
  | .store =>
    some (State.setWorker { s with sharedData := w.tmp + 1 } t { w with pc := .out0 })
  | .out0 =>
    some (State.setWorker { s with out := s.out ++ [.str "Thread "] } t { w with pc := .out1 })
  | .out1 =>
    some (State.setWorker { s with out := s.out ++ [.id t] } t { w with pc := .out2 })
  | .out2 =>
    some (State.setWorker { s with out := s.out ++ [.str " incrementa a "] } t
      { w with pc := .out3 })
  | .out3 =>
    some (State.setWorker { s with out := s.out ++ [.int s.sharedData] } t
      { w with pc := .out4 })
  | .out4 =>
    some (State.setWorker { s with out := s.out ++ [.endl] } t { w with pc := .unlock })
  | .unlock =>
    some (State.setWorker { s with mtx := none } t { w with pc := .test, i := w.i + 1 })
  | .done => none

/-- One step of `main` (lines 17-24): create `t1`, create `t2`, join `t1`
(possible once it has returned), join `t2`, the three insertions of line 22
(`out1` reading `*sharedData`), `return 0`. -/
def main (s : State) : Option State :=
  match s.mainPc with
  | .spawn1 => some { s with w1 := { s.w1 with pc := .test, i := 0 }, mainPc := .spawn2 }
  | .spawn2 => some { s with w2 := { s.w2 with pc := .test, i := 0 }, mainPc := .join1 }
  | .join1 => if s.w1.pc = .done then some { s with mainPc := .join2 } else none
  | .join2 => if s.w2.pc = .done then some { s with mainPc := .out0 } else none
  | .out0 => some { s with out := s.out ++ [.str "Valor final: "], mainPc := .out1 }
  | .out1 => some { s with out := s.out ++ [.int s.sharedData], mainPc := .out2 }
  | .out2 => some { s with out := s.out ++ [.endl], mainPc := .returned }
  | .returned => none

/-- One step of the process by the scheduled thread. -/
def step (p : Proc) (s : State) : Option State :=
  match p with
  | .main => main s
  | .worker t => increment t s

/-- Run a schedule; `none` when it schedules a thread that cannot move. -/
def run : List Proc → State → Option State
  | [], s => some s
  | p :: ps, s => (step p s).bind (run ps)

/-- What a step of `p` from `s` writes to `*sharedData`: the writing thread
and the value, when the step is the write of `(*sharedData)++`. -/
def written (p : Proc) (s : State) : List (Tid × Int) :=
  match p with
  | .main => []
  | .worker t => if (s.worker t).pc = .store then [(t, (s.worker t).tmp + 1)] else []

/-- The writes to `*sharedData` made along a schedule, in order. -/
def increments : List Proc → State → List (Tid × Int)
  | [], _ => []
  | p :: ps, s =>
    match step p s with
    | none => []
    | some s1 => written p s ++ increments ps s1

/-- A schedule that runs `t1` to completion, then `t2`, then the rest of
`main`. -/
def sequentialSchedule : List Proc :=
  [.main, .main] ++ List.replicate 51 (.worker .t1) ++ List.replicate 51 (.worker .t2)
    ++ List.replicate 5 .main

/-- A schedule in which the workers alternate, one loop iteration each. -/
def alternatingSchedule : List Proc :=
  [.main, .main]
    ++ (List.replicate 5
          (List.replicate 10 (Proc.worker .t2) ++ List.replicate 10 (Proc.worker .t1))).flatten
    ++ [.worker .t1, .worker .t2] ++ List.replicate 5 .main

end SmartPointer_3

/-! ## SmartPointer_4.cpp: increments of a `std::atomic<int>` -/

namespace SmartPointer_4
open Threads

/-- Program counter of a thread running `increment`. -/
inductive Pc where
  | idle
  | test
  | inc
  | out0
  | out1
  | out2
  | out3
  | out4
  | done
  deriving DecidableEq, Repr

/-- Locals of a thread running `increment`: where it is and the loop
variable `i`. -/
structure Worker where
  pc : Pc
  i : Nat
  deriving DecidableEq, Repr

/-- Process state: the `std::atomic<int>` behind `sharedData`, the two
workers, the position of `main`, and what has reached `std::cout`. -/
structure State where
  sharedData : Int
  w1 : Worker
  w2 : Worker
  mainPc : MainPc
  out : List Tok
  deriving DecidableEq, Repr

/-- State after the global is initialised (line 6) and before `main`. -/
def init : State :=
  { sharedData := 0,
    w1 := { pc := .idle, i := 0 },
    w2 := { pc := .idle, i := 0 },
    mainPc := .spawn1, out := [] }

/-- Locals of a worker. -/
def State.worker (s : State) : Tid → Worker
  | .t1 => s.w1
  | .t2 => s.w2

/-- Update the locals of a worker. -/
def State.setWorker (s : State) (t : Tid) (w : Worker) : State :=
  match t with
  | .t1 => { s with w1 := w }
  | .t2 => { s with w2 := w }

/-- One step of thread `t` in `increment` (lines 8-13); `none` when the
thread cannot move (not started, or returned). No step ever waits.

* `test`: the loop condition `i < 5`;
* `inc`: `(*sharedData)++`, one indivisible fetch-and-add on the atomic;
* `out0` .. `out4`: the five insertions of line 11, `out3` loading the
  atomic at that moment; `out4` is followed by `i++`. -/
def increment (t : Tid) (s : State) : Option State :=
  let w := s.worker t
  match w.pc with
  | .idle => none
  | .test => some (s.setWorker t { w with pc := if w.i < 5 then .inc else .done })
  | .inc =>
    some (State.setWorker { s with sharedData := wrap32 (s.sharedData + 1) } t
      { w with pc := .out0 })
  | .out0 =>
    some (State.setWorker { s with out := s.out ++ [.str "Thread "] } t { w with pc := .out1 })
  | .out1 =>
    some (State.setWorker { s with out := s.out ++ [.id t] } t { w with pc := .out2 })
  | .out2 =>
    some (State.setWorker { s with out := s.out ++ [.str " incrementa a "] } t
      { w with pc := .out3 })
  | .out3 =>
    some (State.setWorker { s with out := s.out ++ [.int s.sharedData] } t
      { w with pc := .out4 })
  | .out4 =>
    some (State.setWorker { s with out := s.out ++ [.endl] } t
      { w with pc := .test, i := w.i + 1 })
  | .done => none

/-- One step of `main` (lines 15-22): create `t1`, create `t2`, join `t1`
(possible once it has returned), join `t2`, the three insertions of line 20
(`out1` loading the atomic), `return 0`. -/
def main (s : State) : Option State :=
  match s.mainPc with
  | .spawn1 => some { s with w1 := { s.w1 with pc := .test, i := 0 }, mainPc := .spawn2 }
  | .spawn2 => some { s with w2 := { s.w2 with pc := .test, i := 0 }, mainPc := .join1 }
  | .join1 => if s.w1.pc = .done then some { s with mainPc := .join2 } else none
  | .join2 => if s.w2.pc = .done then some { s with mainPc := .out0 } else none
  | .out0 => some { s with out := s.out ++ [.str "Valor final: "], mainPc := .out1 }
  | .out1 => some { s with out := s.out ++ [.int s.sharedData], mainPc := .out2 }
  | .out2 => some { s with out := s.out ++ [.endl], mainPc := .returned }
  | .returned => none

/-- One step of the process by the scheduled thread. -/
def step (p : Proc) (s : State) : Option State :=
  match p with
  | .main => main s
  | .worker t => increment t s

/-- Run a schedule; `none` when it schedules a thread that cannot move. -/
def run : List Proc → State → Option State
  | [], s => some s
  | p :: ps, s => (step p s).bind (run ps)

/-- A schedule in which the two workers move in lock step, one step each
in turn, so that their increments and their reads interleave. -/
def lockstepSchedule : List Proc :=
  [.main, .main]
    ++ (List.replicate 36 [Proc.worker .t1, Proc.worker .t2]).flatten
    ++ List.replicate 5 .main

end SmartPointer_4

/-! ## SmartPointer_3.cpp: invariants of the transition system -/

namespace SmartPointer_3
open Threads

/-- Positions at which the thread holds `mtx`. -/
def Pc.crit : Pc → Bool
  | .load | .store | .out0 | .out1 | .out2 | .out3 | .out4 | .unlock => true
  | _ => false

/-- 1 at the positions of a loop iteration that come after its write to
`*sharedData`, 0 elsewhere. -/
def Pc.bumped : Pc → Nat
  | .out0 | .out1 | .out2 | .out3 | .out4 | .unlock => 1
  | _ => 0

/-- Number of writes to `*sharedData` a worker has made. -/
def Worker.count (w : Worker) : Nat :=
  w.i + w.pc.bumped

/-- Steps taken inside the current loop iteration. -/
def Pc.offset : Pc → Nat
  | .idle => 0
  | .test => 0
  | .lock => 1
  | .load => 2
  | .store => 3
  | .out0 => 4
  | .out1 => 5
  | .out2 => 6
  | .out3 => 7
  | .out4 => 8
  | .unlock => 9
  | .done => 1

/-- Steps a worker has taken. -/
def Worker.ticks (w : Worker) : Nat :=
  10 * w.i + w.pc.offset

/-- Steps `main` has taken. -/
def mainTicks : MainPc → Nat
  | .spawn1 => 0
  | .spawn2 => 1
  | .join1 => 2
  | .join2 => 3
  | .out0 => 4
  | .out1 => 5
  | .out2 => 6
  | .returned => 7

/-- Steps the process has taken. -/
def ticks (s : State) : Nat :=
  mainTicks s.mainPc + s.w1.ticks + s.w2.ticks

/-- Invariant of one worker: it holds `mtx` exactly inside the critical
section, the value it read is still the value of `*sharedData` when it
writes, and its loop variable is in range. -/
def WInv (s : State) (t : Tid) : Prop :=
  (s.mtx = some t ↔ (s.worker t).pc.crit = true)
  ∧ ((s.worker t).pc = .store → (s.worker t).tmp = s.sharedData)
  ∧ (s.worker t).i ≤ 5
  ∧ ((s.worker t).pc.crit = true ∨ (s.worker t).pc = .lock → (s.worker t).i < 5)
  ∧ ((s.worker t).pc = .done → (s.worker t).i = 5)
  ∧ ((s.worker t).pc = .idle → (s.worker t).i = 0)

/-- What the position of `main` says about the workers: a worker is idle
exactly until `main` has created it, and has returned once `main` has
joined it. -/
def mainOk (s : State) : Prop :=
  (s.w1.pc = .idle ↔ s.mainPc = .spawn1)
  ∧ (s.w2.pc = .idle ↔ s.mainPc = .spawn1 ∨ s.mainPc = .spawn2)
  ∧ (3 ≤ mainTicks s.mainPc → s.w1.pc = .done)
  ∧ (4 ≤ mainTicks s.mainPc → s.w2.pc = .done)

/-- Invariant of the process: `*sharedData` is the number of writes made. -/
def Inv (s : State) : Prop :=
  s.sharedData = ((s.w1.count + s.w2.count : Nat) : Int)
  ∧ WInv s .t1 ∧ WInv s .t2 ∧ mainOk s

/-- The progress lines of a sequence of writes: for each write, the line
naming the writing thread and the value written. -/
def lines : List (Tid × Int) → List Tok
  | [] => []
  | e :: rest => line e.1 e.2 ++ lines rest

/-- Number of tokens of its progress line that a worker has inserted,
while it is between the first and the last insertion. -/
def Pc.printed : Pc → Option Nat
  | .out0 => some 0
  | .out1 => some 1
  | .out2 => some 2
  | .out3 => some 3
  | .out4 => some 4
  | _ => none

/-- The part of the last line that `main` has inserted. -/
def mainOut (pc : MainPc) (v : Int) : List Tok :=
  match pc with
  | .out1 => (finalLine v).take 1
  | .out2 => (finalLine v).take 2
  | .returned => finalLine v
  | _ => []

/-- Invariant relating the output to the writes `L` made so far: the values
written are 1, 2, .. in order; while a worker is part-way through its
progress line, the last write is its own, of the current value, and the
output is the complete lines of the earlier writes followed by the tokens
it has inserted; otherwise the output is the complete lines of all writes,
in order, followed by what `main` has inserted. -/
def OutInv (s : State) (L : List (Tid × Int)) : Prop :=
  L.map Prod.snd = (List.range' 1 (s.w1.count + s.w2.count)).map Int.ofNat
  ∧ (∀ j, s.w1.pc.printed = some j →
      ∃ L0, L = L0 ++ [(Tid.t1, s.sharedData)]
        ∧ s.out = lines L0 ++ (line .t1 s.sharedData).take j)
  ∧ (∀ j, s.w2.pc.printed = some j →
      ∃ L0, L = L0 ++ [(Tid.t2, s.sharedData)]
        ∧ s.out = lines L0 ++ (line .t2 s.sharedData).take j)
  ∧ (s.w1.pc.printed = none → s.w2.pc.printed = none →
      s.out = lines L ++ mainOut s.mainPc s.sharedData)

end SmartPointer_3

/-! ## SmartPointer_4.cpp: invariants of the transition system -/

namespace SmartPointer_4
open Threads

/-- 1 at the positions of a loop iteration that come after its
fetch-and-add, 0 elsewhere. -/
def Pc.bumped : Pc → Nat
  | .out0 | .out1 | .out2 | .out3 | .out4 => 1
  | _ => 0

/-- Number of increments a worker has made. -/
def Worker.count (w : Worker) : Nat :=
  w.i + w.pc.bumped

/-- Steps taken inside the current loop iteration. -/
def Pc.offset : Pc → Nat
  | .idle => 0
  | .test => 0
  | .inc => 1
  | .out0 => 2
  | .out1 => 3
  | .out2 => 4
  | .out3 => 5
  | .out4 => 6
  | .done => 1

/-- Steps a worker has taken. -/
def Worker.ticks (w : Worker) : Nat :=
  7 * w.i + w.pc.offset

/-- Steps `main` has taken. -/
def mainTicks : MainPc → Nat
  | .spawn1 => 0
  | .spawn2 => 1
  | .join1 => 2
  | .join2 => 3
  | .out0 => 4
  | .out1 => 5
  | .out2 => 6
  | .returned => 7

/-- Steps the process has taken. -/
def ticks (s : State) : Nat :=
  mainTicks s.mainPc + s.w1.ticks + s.w2.ticks

/-- Invariant of one worker: its loop variable is in range. -/
def WInv (w : Worker) : Prop :=
  w.i ≤ 5
  ∧ (w.pc.offset ≠ 0 ∧ w.pc ≠ .done → w.i < 5)
  ∧ (w.pc = .done → w.i = 5)
  ∧ (w.pc = .idle → w.i = 0)

/-- What the position of `main` says about the workers. -/
def mainOk (s : State) : Prop :=
  (s.w1.pc = .idle ↔ s.mainPc = .spawn1)
  ∧ (s.w2.pc = .idle ↔ s.mainPc = .spawn1 ∨ s.mainPc = .spawn2)
  ∧ (3 ≤ mainTicks s.mainPc → s.w1.pc = .done)
  ∧ (4 ≤ mainTicks s.mainPc → s.w2.pc = .done)

/-- The part of the last line that `main` has inserted. -/
def mainOut (pc : MainPc) (v : Int) : List Tok :=
  match pc with
  | .out1 => (finalLine v).take 1
  | .out2 => (finalLine v).take 2
  | .returned => finalLine v
  | _ => []

/-- Invariant of the process: the atomic holds the number of increments
made, and the output ends with what `main` has inserted. -/
def Inv (s : State) : Prop :=
  s.sharedData = ((s.w1.count + s.w2.count : Nat) : Int)
  ∧ WInv s.w1 ∧ WInv s.w2 ∧ mainOk s
  ∧ ∃ pre, s.out = pre ++ mainOut s.mainPc s.sharedData

end SmartPointer_4

/-! ## Facts about the heap -/

namespace Cpp

theorem cellAt_lt {w : World} {a : Nat} (h : cellAt w a ≠ .freed) : a < w.heap.length := by
  unfold cellAt at h
  by_contra hlt
  apply h
  have hnone : w.heap[a]? = none := List.getElem?_eq_none (Nat.le_of_not_lt hlt)
  simp [List.getD, hnone]

theorem cellAt_setCell_self {w : World} {a : Nat} (c : Cell) (h : a < w.heap.length) :
    cellAt (setCell w a c) a = c := by
  simp [cellAt, setCell, List.getD, h]

theorem cellAt_alloc (w : World) (c : Cell) :
    cellAt (alloc w c).2 (alloc w c).1 = c := by
  simp [cellAt, alloc, List.getD]

theorem destroy_heap (o : Obj) (w : World) : (o.destroy w).heap = w.heap := by
  cases o <;> rfl

theorem make_unique_chars_returns {n : Nat} {w : World} (h : n ≤ w.room) :
    make_unique_chars n w
      = .returns (some w.heap.length,
          { heap := w.heap ++ [.plain (.chars (List.replicate n 0))], out := w.out,
            room := w.room - n }) := by
  simp [make_unique_chars, h, alloc]

theorem make_unique_chars_throws {n : Nat} {w : World} (h : w.room < n) :
    make_unique_chars n w = .throws .bad_alloc := by
  simp [make_unique_chars, Nat.not_le.mpr h]

theorem make_unique_chars_inv {n : Nat} {w w1 : World} {p : unique_ptr}
    (h : make_unique_chars n w = .returns (p, w1)) :
    n ≤ w.room ∧ p = some w.heap.length
      ∧ w1 = { heap := w.heap ++ [.plain (.chars (List.replicate n 0))], out := w.out,
               room := w.room - n } := by
  by_cases hn : n ≤ w.room
  · rw [make_unique_chars_returns hn] at h
    simp only [Outcome.returns.injEq, Prod.mk.injEq] at h
    exact ⟨hn, h.1.symm, h.2.symm⟩
  · rw [make_unique_chars_throws (Nat.lt_of_not_le hn)] at h
    exact Outcome.noConfusion h

theorem cellAt_fresh (w : World) (c : Cell) (r : Nat) :
    cellAt { heap := w.heap ++ [c], out := w.out, room := r } w.heap.length = c := by
  simp [cellAt, List.getD]

end Cpp

namespace Cpp

theorem bind_returns {α β : Type} (a : α) (f : α → Outcome β) :
    (Outcome.returns a).bind f = f a := rfl

theorem setCell_setCell (w : World) (a : Nat) (c d : Cell) :
    setCell (setCell w a c) a d = setCell w a d := by
  simp [setCell, List.set_set]

end Cpp

/-! ## SmartPointer_2.cpp: shared ownership -/

namespace Cpp

/-- C3. For a shared storage cell whose use count is `n ≥ 1`, copying a
handle returns a handle to the same storage and leaves the count at `n + 1`
(which is what `use_count()` then reports), destroying that copy brings the
count back to `n`, and destroying a handle leaves the count at `n - 1`. In
`SmartPointer_2`, after `make_shared` and one copy, `use_count()` returns 2
and the text printed so far ends with `Contador de referencias: 2`. -/
theorem shared_ptr_refcount (w : World) (a n : Nat) (o : Obj)
    (hcell : cellAt w a = .counted n o) (hn : 1 ≤ n) :
    (∃ w1, shared_ptr.copy (some a) w = .returns (some a, w1)
        ∧ refcount w1 a = n + 1
        ∧ shared_ptr.use_count (some a) w1 = .returns ((n : Int) + 1)
        ∧ ∃ w2, shared_ptr.dtor (some a) w1 = .returns w2 ∧ refcount w2 a = n)
    ∧ (∃ w3, shared_ptr.dtor (some a) w = .returns w3 ∧ refcount w3 a = n - 1)
    ∧ (∃ w4, SmartPointer_2.body World.init = .returns (some 0, some 0, 2, w4)
        ∧ refcount w4 0 = 2
        ∧ render w4.out = "Construido\nContador de referencias: 2\n") := by
  have hlt : a < w.heap.length := cellAt_lt (by simp [hcell])
  refine ⟨⟨setCell w a (.counted (n + 1) o), ?_, ?_, ?_, setCell w a (.counted n o), ?_, ?_⟩,
    ?_, ?_⟩
  · simp [shared_ptr.copy, hcell]
  · simp [refcount, cellAt_setCell_self _ hlt]
  · simp [shared_ptr.use_count, cellAt_setCell_self _ hlt]
  · have hn0 : n ≠ 0 := by omega
    simp [shared_ptr.dtor, cellAt_setCell_self _ hlt, hn0, setCell_setCell]
  · simp [refcount, cellAt_setCell_self _ hlt]
  · obtain ⟨m, rfl⟩ : ∃ m, n = m + 1 := ⟨n - 1, by omega⟩
    by_cases hm : m = 0
    · refine ⟨setCell (o.destroy w) a .freed, ?_, ?_⟩
      · simp [shared_ptr.dtor, hcell, hm]
      · have hlt2 : a < (o.destroy w).heap.length := by rw [destroy_heap]; exact hlt
        simp [refcount, cellAt_setCell_self _ hlt2, hm]
    · refine ⟨setCell w a (.counted m o), ?_, ?_⟩
      · simp [shared_ptr.dtor, hcell, hm]
      · simp [refcount, cellAt_setCell_self _ hlt]
  · exact ⟨_, rfl, by decide, by decide⟩

/-- Witness for C3: the storage created by `make_shared<Test>()`, count 1. -/
theorem shared_ptr_refcount_witness :
    cellAt (make_shared_Test World.init).2 0 = .counted 1 .Test ∧ 1 ≤ 1
    ∧ (∃ w2, shared_ptr.dtor (some 0) (make_shared_Test World.init).2 = .returns w2
        ∧ refcount w2 0 = 1 - 1) :=
  ⟨by decide, by decide,
    (shared_ptr_refcount (make_shared_Test World.init).2 0 1 .Test (by decide) (by decide)).2.1⟩

/-- C4. A handle destructor on storage with use count `n + 1` frees the
storage and runs the object's destructor exactly when `n = 0`; otherwise it
leaves the object alive and prints nothing. In `SmartPointer_2` the
destructor of `ptr2` (first to go out of scope) takes the count from 2 to 1
without output, the destructor of `ptr1` then frees the storage, and the
whole output is `Construido`, `Contador de referencias: 2`, `Destruido`,
with `Destruido` printed once. -/
theorem shared_storage_freed_once (w : World) (a n : Nat) (o : Obj)
    (hcell : cellAt w a = .counted (n + 1) o) :
    (∃ w1, shared_ptr.dtor (some a) w = .returns w1
        ∧ (n = 0 → cellAt w1 a = .freed ∧ w1.out = (o.destroy w).out)
        ∧ (n ≠ 0 → cellAt w1 a = .counted n o ∧ w1.out = w.out))
    ∧ (∃ w0 w2 w3, SmartPointer_2.body World.init = .returns (some 0, some 0, 2, w0)
        ∧ shared_ptr.dtor (some 0) w0 = .returns w2
        ∧ cellAt w2 0 = .counted 1 .Test ∧ w2.out = w0.out
        ∧ Tok.str "Destruido\n" ∉ w2.out
        ∧ shared_ptr.dtor (some 0) w2 = .returns w3
        ∧ cellAt w3 0 = .freed
        ∧ SmartPointer_2.main World.init = .returns (0, w3)
        ∧ w3.out = [.str "Construido\n", .str "Contador de referencias: ", .int 2, .endl,
            .str "Destruido\n"]
        ∧ w3.out.count (.str "Destruido\n") = 1
        ∧ w3.out.count (.str "Construido\n") = 1
        ∧ render w3.out = "Construido\nContador de referencias: 2\nDestruido\n") := by
  have hlt : a < w.heap.length := cellAt_lt (by simp [hcell])
  constructor
  · by_cases hn : n = 0
    · have hlt2 : a < (o.destroy w).heap.length := by rw [destroy_heap]; exact hlt
      refine ⟨setCell (o.destroy w) a .freed, by simp [shared_ptr.dtor, hcell, hn], ?_, ?_⟩
      · intro _
        exact ⟨cellAt_setCell_self _ hlt2, rfl⟩
      · intro h
        exact absurd hn h
    · refine ⟨setCell w a (.counted n o), by simp [shared_ptr.dtor, hcell, hn], ?_, ?_⟩
      · intro h
        exact absurd h hn
      · intro _
        exact ⟨cellAt_setCell_self _ hlt, rfl⟩
  · exact ⟨_, _, _, rfl, rfl, by decide, by decide, by decide, rfl, by decide, by decide,
      by decide, by decide, by decide, by decide⟩

/-- Witness for C4: destroying the only handle of the `make_shared<Test>()`
storage frees it. -/
theorem shared_storage_freed_once_witness :
    cellAt (make_shared_Test World.init).2 0 = .counted (0 + 1) .Test
    ∧ ∃ w1, shared_ptr.dtor (some 0) (make_shared_Test World.init).2 = .returns w1
        ∧ cellAt w1 0 = .freed :=
  ⟨by decide,
   (shared_storage_freed_once (make_shared_Test World.init).2 0 0 .Test (by decide)).1.imp
     fun _ h => ⟨h.1, (h.2.1 rfl).1⟩⟩

end Cpp

/-! ## SmartPointer_0.cpp and SmartPointer_1.cpp: exclusive ownership -/

namespace Cpp

/-- C5. `"Hola, mundo!"` denotes 13 bytes (12 characters and the NUL). After
`make_unique<char[]>(20)` and the `strcpy` to offset 0, the 20-byte buffer
holds exactly those 13 bytes at offsets 0..12, reading the C string back
from offset 0 gives the 12 characters, and the program prints
`Texto almacenado: Hola, mundo!`. -/
theorem hola_mundo_round_trip :
    (literal "Hola, mundo!").length = 13
    ∧ ∃ w, SmartPointer_0.body World.init = .returns (some 0, w)
        ∧ unique_ptr.capacity (some 0) w = 20
        ∧ cellAt w 0 = .plain (.chars (literal "Hola, mundo!" ++ List.replicate 7 0))
        ∧ cstrAt w (unique_ptr.get (some 0)) = .returns (literal "Hola, mundo!").dropLast
        ∧ textOf (literal "Hola, mundo!").dropLast = "Hola, mundo!"
        ∧ w.out = [.str "Texto almacenado: ", .cstr (literal "Hola, mundo!").dropLast, .endl]
        ∧ render w.out = "Texto almacenado: Hola, mundo!\n"
        ∧ ∃ w1, SmartPointer_0.main World.init = .returns (0, w1)
            ∧ render w1.out = "Texto almacenado: Hola, mundo!\n" :=
  ⟨by decide, _, rfl, by decide, by decide, by decide, by decide, by decide, by decide,
    _, rfl, by decide⟩

/-- C6. Whenever `make_unique<char[]>(C)` returns (which it does exactly
when the free store can provide `C` bytes; otherwise it throws
`std::bad_alloc` and no handle exists), a move of the new handle leaves the
source handle empty (null pointer, capacity 0) and gives the destination
handle the original storage, of capacity `C`. In `SmartPointer_1`, after
`ptr2 = std::move(ptr1)`, `ptr1` is null and `ptr2` owns the `Test` object
created by `make_unique`. -/
theorem unique_ptr_transfer (C : Nat) (w : World) (p : unique_ptr) (w1 : World)
    (hcreate : make_unique_chars C w = .returns (p, w1)) :
    C ≤ w.room
    ∧ (unique_ptr.move p).1 = none
    ∧ unique_ptr.capacity (unique_ptr.move p).1 w1 = 0
    ∧ (unique_ptr.move p).2 = p
    ∧ p = some w.heap.length
    ∧ cellAt w1 w.heap.length = .plain (.chars (List.replicate C 0))
    ∧ unique_ptr.capacity (unique_ptr.move p).2 w1 = C
    ∧ (∀ D, w.room < D → make_unique_chars D w = .throws .bad_alloc)
    ∧ (SmartPointer_1.body World.init).1 = none
    ∧ (SmartPointer_1.body World.init).2.1 = (make_unique_Test World.init).1
    ∧ (SmartPointer_1.body World.init).2.1 = some 0
    ∧ cellAt (SmartPointer_1.body World.init).2.2 0 = .plain .Test := by
  obtain ⟨hroom, hp, hw1⟩ := make_unique_chars_inv hcreate
  have hcell : cellAt w1 w.heap.length = .plain (.chars (List.replicate C 0)) := by
    rw [hw1]
    exact cellAt_fresh w _ _
  refine ⟨hroom, rfl, rfl, rfl, hp, hcell, ?_, fun D hD => make_unique_chars_throws hD,
    rfl, rfl, rfl, by decide⟩
  show unique_ptr.capacity p w1 = C
  rw [hp]
  simp [unique_ptr.capacity, hcell]

/-- Witness for C6: the 20-byte request of `SmartPointer_0` is granted and
the moved-to handle has capacity 20; a request for 2^62 bytes throws. -/
theorem unique_ptr_transfer_witness :
    make_unique_chars 20 World.init
        = .returns (some 0,
            { heap := [.plain (.chars (List.replicate 20 0))], out := [], room := 4294967276 })
    ∧ unique_ptr.capacity (unique_ptr.move (some 0)).2
        { heap := [.plain (.chars (List.replicate 20 0))], out := [], room := 4294967276 } = 20
    ∧ make_unique_chars 4611686018427387904 World.init = .throws .bad_alloc :=
  ⟨by decide,
   (unique_ptr_transfer 20 World.init (some 0)
      { heap := [.plain (.chars (List.replicate 20 0))], out := [], room := 4294967276 }
      (by decide)).2.2.2.2.2.2.1,
   by decide⟩

/-- C7. Destroying a moved-from handle does nothing, in every state. In
`SmartPointer_1` the destructor of `ptr2` (the owner after the move) runs
`~Test` and frees the storage, the destructor of the emptied `ptr1` changes
nothing, and the whole output is `Construido` followed by one `Destruido`. -/
theorem unique_ptr_destroyed_once (p : unique_ptr) (w : World) :
    unique_ptr.dtor (unique_ptr.move p).1 w = .returns w
    ∧ ∃ w1, unique_ptr.dtor (SmartPointer_1.body World.init).2.1
          (SmartPointer_1.body World.init).2.2 = .returns w1
        ∧ (SmartPointer_1.body World.init).2.2.out = [.str "Construido\n"]
        ∧ w1.out = [.str "Construido\n", .str "Destruido\n"]
        ∧ cellAt w1 0 = .freed
        ∧ unique_ptr.dtor (SmartPointer_1.body World.init).1 w1 = .returns w1
        ∧ SmartPointer_1.main World.init = .returns (0, w1)
        ∧ w1.out.count (.str "Destruido\n") = 1
        ∧ render w1.out = "Construido\nDestruido\n" :=
  ⟨rfl, _, rfl, by decide, by decide, by decide, rfl, rfl, by decide, by decide⟩

end Cpp

/-! ## Error behaviour of the buffer operations -/

namespace Cpp

end Cpp

/-! ## The runs of `SmartPointer_0` do not depend on the size of the free store -/

namespace Cpp

theorem main_0_granted (room : Nat) (h : 20 ≤ room) :
    SmartPointer_0.main (World.start room)
      = .returns (0,
          { heap := [.freed],
            out := [.str "Texto almacenado: ", .cstr (literal "Hola, mundo!").dropLast, .endl],
            room := room }) := by
  have hc : make_unique_chars 20 (World.start room)
      = .returns (some 0,
          { heap := [.plain (.chars (List.replicate 20 0))], out := [], room := room - 20 }) :=
    make_unique_chars_returns (w := World.start room) h
  have hr : room - 20 + 20 = room := Nat.sub_add_cancel h
  simp only [SmartPointer_0.main, SmartPointer_0.body, hc, bind_returns]
  have hw : strcpy ⟨[.plain (.chars (List.replicate 20 0))], [], room - 20⟩
        (unique_ptr.get (some 0)) (literal "Hola, mundo!")
      = .returns ⟨[.plain (.chars (literal "Hola, mundo!" ++ List.replicate 7 0))], [],
          room - 20⟩ := by
    rfl
  rw [hw]
  simp only [bind_returns]
  show Outcome.returns ((0 : Int),
      ({ heap := [.freed],
         out := [.str "Texto almacenado: ", .cstr (literal "Hola, mundo!").dropLast, .endl],
         room := room - 20 + 20 } : World)) = _
  rw [hr]

theorem main_0_refused (room : Nat) (h : room < 20) :
    SmartPointer_0.main (World.start room) = .throws .bad_alloc := by
  have hc : make_unique_chars 20 (World.start room) = .throws .bad_alloc :=
    make_unique_chars_throws (w := World.start room) h
  simp only [SmartPointer_0.main, SmartPointer_0.body, hc]
  rfl

end Cpp

/-! ## SmartPointer_3.cpp: the invariants hold along every schedule -/

namespace SmartPointer_3
open Threads

theorem crit_cases :
    Pc.crit .idle = false ∧ Pc.crit .test = false ∧ Pc.crit .lock = false
    ∧ Pc.crit .load = true ∧ Pc.crit .store = true ∧ Pc.crit .out0 = true
    ∧ Pc.crit .out1 = true ∧ Pc.crit .out2 = true ∧ Pc.crit .out3 = true
    ∧ Pc.crit .out4 = true ∧ Pc.crit .unlock = true ∧ Pc.crit .done = false := by
  decide

theorem bumped_cases :
    Pc.bumped .idle = 0 ∧ Pc.bumped .test = 0 ∧ Pc.bumped .lock = 0
    ∧ Pc.bumped .load = 0 ∧ Pc.bumped .store = 0 ∧ Pc.bumped .out0 = 1
    ∧ Pc.bumped .out1 = 1 ∧ Pc.bumped .out2 = 1 ∧ Pc.bumped .out3 = 1
    ∧ Pc.bumped .out4 = 1 ∧ Pc.bumped .unlock = 1 ∧ Pc.bumped .done = 0 := by
  decide

theorem offset_cases :
    Pc.offset .idle = 0 ∧ Pc.offset .test = 0 ∧ Pc.offset .lock = 1
    ∧ Pc.offset .load = 2 ∧ Pc.offset .store = 3 ∧ Pc.offset .out0 = 4
    ∧ Pc.offset .out1 = 5 ∧ Pc.offset .out2 = 6 ∧ Pc.offset .out3 = 7
    ∧ Pc.offset .out4 = 8 ∧ Pc.offset .unlock = 9 ∧ Pc.offset .done = 1 := by
  decide

theorem mainTicks_cases :
    mainTicks .spawn1 = 0 ∧ mainTicks .spawn2 = 1 ∧ mainTicks .join1 = 2
    ∧ mainTicks .join2 = 3 ∧ mainTicks .out0 = 4 ∧ mainTicks .out1 = 5
    ∧ mainTicks .out2 = 6 ∧ mainTicks .returned = 7 := by
  decide

theorem inv_init : Inv init := by
  simp [Inv, WInv, mainOk, init, State.worker, Worker.count, crit_cases, bumped_cases,
    mainTicks_cases]

theorem inv_step {p : Proc} {s s1 : State} (hinv : Inv s) (hstep : step p s = some s1) :
    Inv s1 := by
  obtain ⟨sd, mtx, ⟨pc1, i1, tmp1⟩, ⟨pc2, i2, tmp2⟩, mpc, out⟩ := s
  simp only [Inv, WInv, mainOk, State.worker, Worker.count] at hinv
  obtain ⟨hv, ⟨ha1, ha2, ha3, ha4, ha5, ha6⟩, ⟨hb1, hb2, hb3, hb4, hb5, hb6⟩,
    hm1, hm2, hm3, hm4⟩ := hinv
  cases p with
  | main =>
    cases mpc <;>
      simp [step, main] at hstep <;>
      (try obtain ⟨h1, h2⟩ := hstep) <;>
      subst_vars <;>
      simp_all [Inv, WInv, mainOk, State.worker, Worker.count, crit_cases, bumped_cases,
        mainTicks_cases]
  | worker t =>
    cases t with
    | t1 =>
      cases pc1 <;>
        simp [step, increment, State.worker, State.setWorker] at hstep <;>
        (try cases mtx <;> simp at hstep) <;>
        subst_vars <;>
        (try by_cases h5 : i1 < 5 <;> simp only [h5, if_true, if_false]) <;>
        simp_all [Inv, WInv, mainOk, State.worker, Worker.count, crit_cases, bumped_cases] <;>
        (try omega)
      exact ⟨by omega, fun h => by rw [h] at hb1; exact absurd hb1 (by decide)⟩
    | t2 =>
      cases pc2 <;>
        simp [step, increment, State.worker, State.setWorker] at hstep <;>
        (try cases mtx <;> simp at hstep) <;>
        subst_vars <;>
        (try by_cases h5 : i2 < 5 <;> simp only [h5, if_true, if_false]) <;>
        simp_all [Inv, WInv, mainOk, State.worker, Worker.count, crit_cases, bumped_cases] <;>
        (try omega)
      exact ⟨by omega, fun h => by rw [h] at ha1; exact absurd ha1 (by decide)⟩

theorem ticks_step {p : Proc} {s s1 : State} (hinv : Inv s) (hstep : step p s = some s1) :
    ticks s1 = ticks s + 1 := by
  obtain ⟨sd, mtx, ⟨pc1, i1, tmp1⟩, ⟨pc2, i2, tmp2⟩, mpc, out⟩ := s
  simp only [Inv, WInv, mainOk, State.worker, Worker.count] at hinv
  obtain ⟨hv, ⟨ha1, ha2, ha3, ha4, ha5, ha6⟩, ⟨hb1, hb2, hb3, hb4, hb5, hb6⟩,
    hm1, hm2, hm3, hm4⟩ := hinv
  cases p with
  | main =>
    cases mpc <;>
      simp [step, main] at hstep <;>
      (try obtain ⟨h1, h2⟩ := hstep) <;>
      subst_vars <;>
      simp_all [ticks, Worker.ticks, offset_cases, mainTicks_cases] <;>
      omega
  | worker t =>
    cases t with
    | t1 =>
      cases pc1 <;>
        simp [step, increment, State.worker, State.setWorker] at hstep <;>
        (try cases mtx <;> simp at hstep) <;>
        subst_vars <;>
        (try by_cases h5 : i1 < 5 <;> simp only [h5, if_true, if_false]) <;>
        simp [ticks, Worker.ticks, offset_cases] <;>
        omega
    | t2 =>
      cases pc2 <;>
        simp [step, increment, State.worker, State.setWorker] at hstep <;>
        (try cases mtx <;> simp at hstep) <;>
        subst_vars <;>
        (try by_cases h5 : i2 < 5 <;> simp only [h5, if_true, if_false]) <;>
        simp [ticks, Worker.ticks, offset_cases] <;>
        omega

theorem run_snoc (sch : List Proc) (p : Proc) (s : State) :
    run (sch ++ [p]) s = (run sch s).bind (step p) := by
  induction sch generalizing s with
  | nil => simp [run]
  | cons q sch ih =>
    simp only [List.cons_append, run]
    cases step q s with
    | none => rfl
    | some s1 => simpa using ih s1

theorem increments_snoc (sch : List Proc) (p : Proc) (s s1 s2 : State)
    (hrun : run sch s = some s1) (hstep : step p s1 = some s2) :
    increments (sch ++ [p]) s = increments sch s ++ written p s1 := by
  induction sch generalizing s with
  | nil =>
    simp only [run, Option.some.injEq] at hrun
    subst hrun
    simp [increments, hstep]
  | cons q sch ih =>
    simp only [run] at hrun
    cases hq : step q s with
    | none => simp [hq] at hrun
    | some s3 =>
      rw [hq] at hrun
      rw [List.cons_append]
      simp only [increments, hq]
      rw [ih s3 (by simpa using hrun), List.append_assoc]

theorem worker_ticks_le {s : State} {t : Tid} (h : WInv s t) : (s.worker t).ticks ≤ 51 := by
  obtain ⟨_, _, h3, h4, _, _⟩ := h
  unfold Worker.ticks
  cases hpc : (s.worker t).pc <;> simp [hpc, crit_cases, offset_cases] at h4 ⊢ <;> omega

theorem ticks_le {s : State} (hinv : Inv s) : ticks s ≤ 109 := by
  obtain ⟨_, h1, h2, _⟩ := hinv
  have a := worker_ticks_le h1
  have b := worker_ticks_le h2
  simp only [State.worker] at a b
  have c : mainTicks s.mainPc ≤ 7 := by cases s.mainPc <;> decide
  unfold ticks
  omega

theorem joined_facts {s : State} (hinv : Inv s) (h : 4 ≤ mainTicks s.mainPc) :
    s.sharedData = 10 ∧ s.mtx = none ∧ s.w1.pc = .done ∧ s.w2.pc = .done
      ∧ s.w1.i = 5 ∧ s.w2.i = 5 := by
  obtain ⟨hv, ⟨ha1, _, _, _, ha5, _⟩, ⟨hb1, _, _, _, hb5, _⟩, _, _, hm3, hm4⟩ := hinv
  simp only [State.worker] at ha1 ha5 hb1 hb5
  have d1 := hm3 (by omega)
  have d2 := hm4 h
  have e1 := ha5 d1
  have e2 := hb5 d2
  refine ⟨?_, ?_, d1, d2, e1, e2⟩
  · simp [hv, Worker.count, d1, d2, e1, e2, bumped_cases]
  · rw [d1] at ha1
    rw [d2] at hb1
    cases hm : s.mtx with
    | none => rfl
    | some t =>
      cases t
      · exact absurd (ha1.mp hm) (by decide)
      · exact absurd (hb1.mp hm) (by decide)

theorem progress {s : State} (hinv : Inv s) (hne : s.mainPc ≠ .returned) :
    ∃ p, (step p s).isSome = true := by
  obtain ⟨sd, mtx, ⟨pc1, i1, tmp1⟩, ⟨pc2, i2, tmp2⟩, mpc, out⟩ := s
  simp only [Inv, WInv, mainOk, State.worker, Worker.count] at hinv
  obtain ⟨hv, ⟨ha1, ha2, ha3, ha4, ha5, ha6⟩, ⟨hb1, hb2, hb3, hb4, hb5, hb6⟩,
    hm1, hm2, hm3, hm4⟩ := hinv
  by_cases hmain : (step .main ⟨sd, mtx, ⟨pc1, i1, tmp1⟩, ⟨pc2, i2, tmp2⟩, mpc, out⟩).isSome = true
  · exact ⟨.main, hmain⟩
  by_cases hw1 : (step (.worker .t1)
      ⟨sd, mtx, ⟨pc1, i1, tmp1⟩, ⟨pc2, i2, tmp2⟩, mpc, out⟩).isSome = true
  · exact ⟨.worker .t1, hw1⟩
  refine ⟨.worker .t2, ?_⟩
  cases mpc <;> simp [step, main] at hmain hne <;>
    cases pc1 <;> simp_all [step, increment, State.worker, State.setWorker, crit_cases,
      mainTicks_cases] <;>
    cases pc2 <;> simp_all [crit_cases] <;>
    rcases mtx with _ | (_ | _) <;> simp_all

end SmartPointer_3

namespace SmartPointer_3
open Threads

theorem lines_append (A B : List (Tid × Int)) : lines (A ++ B) = lines A ++ lines B := by
  induction A with
  | nil => rfl
  | cons e A ih => simp [lines, ih]

theorem printed_cases :
    Pc.printed .idle = none ∧ Pc.printed .test = none ∧ Pc.printed .lock = none
    ∧ Pc.printed .load = none ∧ Pc.printed .store = none ∧ Pc.printed .out0 = some 0
    ∧ Pc.printed .out1 = some 1 ∧ Pc.printed .out2 = some 2 ∧ Pc.printed .out3 = some 3
    ∧ Pc.printed .out4 = some 4 ∧ Pc.printed .unlock = none ∧ Pc.printed .done = none := by
  decide

theorem mainOut_nil {pc : MainPc} (v : Int) (h : mainTicks pc < 5) : mainOut pc v = [] := by
  cases pc <;> simp [mainTicks_cases] at h <;> rfl

theorem outInv_init : OutInv init [] := by
  simp [OutInv, init, Worker.count, bumped_cases, printed_cases, lines, mainOut]

theorem values_snoc (n m : Nat) (v : Int) (hm : m = n + 1) (hv : v = (n : Int) + 1) :
    List.map Int.ofNat (List.range' 1 n) ++ [v] = List.map Int.ofNat (List.range' 1 m) := by
  subst hm hv
  rw [List.range'_1_concat]
  simp
  omega

theorem printed_none_of_not_crit {pc : Pc} (h : pc.crit = false) : pc.printed = none := by
  cases pc <;> simp [crit_cases] at h <;> rfl

theorem outInv_main {s s1 : State} {L : List (Tid × Int)} (hinv : Inv s)
    (hout : OutInv s L) (hstep : step .main s = some s1) : OutInv s1 (L ++ written .main s) := by
  have hret := joined_facts hinv
  obtain ⟨sd, mtx, ⟨pc1, i1, tmp1⟩, ⟨pc2, i2, tmp2⟩, mpc, out⟩ := s
  simp only [Inv, WInv, mainOk, State.worker, Worker.count] at hinv
  obtain ⟨hv, ⟨ha1, ha2, ha3, ha4, ha5, ha6⟩, ⟨hb1, hb2, hb3, hb4, hb5, hb6⟩,
    hm1, hm2, hm3, hm4⟩ := hinv
  obtain ⟨hL, ho1, ho2, ho3⟩ := hout
  simp only [Worker.count] at hL
  cases mpc <;>
    simp [step, main] at hstep <;>
    (try obtain ⟨h1, h2⟩ := hstep) <;>
    subst_vars <;>
    simp_all [OutInv, written, State.worker, Worker.count, crit_cases, bumped_cases,
      mainTicks_cases, printed_cases, mainOut, finalLine]

theorem outInv_t1 {s s1 : State} {L : List (Tid × Int)} (hinv : Inv s)
    (hout : OutInv s L) (hstep : step (.worker .t1) s = some s1) :
    OutInv s1 (L ++ written (.worker .t1) s) := by
  have hret := joined_facts hinv
  obtain ⟨sd, mtx, ⟨pc1, i1, tmp1⟩, ⟨pc2, i2, tmp2⟩, mpc, out⟩ := s
  simp only [Inv, WInv, mainOk, State.worker, Worker.count] at hinv
  obtain ⟨hv, ⟨ha1, ha2, ha3, ha4, ha5, ha6⟩, ⟨hb1, hb2, hb3, hb4, hb5, hb6⟩,
    hm1, hm2, hm3, hm4⟩ := hinv
  obtain ⟨hL, ho1, ho2, ho3⟩ := hout
  simp only [Worker.count] at hL
  have hp2 : pc1.crit = true → pc2.printed = none := by
    intro h
    apply printed_none_of_not_crit
    have h1 := ha1.mpr h
    cases hc : pc2.crit with
    | false => rfl
    | true =>
      have h2 := hb1.mpr hc
      rw [h1] at h2
      exact absurd h2 (by decide)
  cases pc1 <;>
    simp [step, increment, State.worker, State.setWorker] at hstep <;>
    (try cases mtx <;> simp at hstep) <;>
    subst_vars <;>
    (try by_cases h5 : i1 < 5 <;> simp only [h5, if_true, if_false]) <;>
    simp_all [OutInv, written, State.worker, Worker.count, crit_cases, bumped_cases,
      printed_cases, lines_append, lines, line] <;>
    first
      | exact ⟨values_snoc _ _ _ (by omega) (by push_cast; omega),
          mainOut_nil _ (by omega)⟩
      | (obtain ⟨L0, h1, h2⟩ := ho1
         exact ⟨L0, h1, by simp [h2]⟩)
      | (obtain ⟨L0, h1, h2⟩ := ho1
         rw [mainOut_nil _ (by omega), h1, h2]
         simp [lines_append, lines, line])

theorem outInv_t2 {s s1 : State} {L : List (Tid × Int)} (hinv : Inv s)
    (hout : OutInv s L) (hstep : step (.worker .t2) s = some s1) :
    OutInv s1 (L ++ written (.worker .t2) s) := by
  have hret := joined_facts hinv
  obtain ⟨sd, mtx, ⟨pc1, i1, tmp1⟩, ⟨pc2, i2, tmp2⟩, mpc, out⟩ := s
  simp only [Inv, WInv, mainOk, State.worker, Worker.count] at hinv
  obtain ⟨hv, ⟨ha1, ha2, ha3, ha4, ha5, ha6⟩, ⟨hb1, hb2, hb3, hb4, hb5, hb6⟩,
    hm1, hm2, hm3, hm4⟩ := hinv
  obtain ⟨hL, ho1, ho2, ho3⟩ := hout
  simp only [Worker.count] at hL
  have hp2 : pc2.crit = true → pc1.printed = none := by
    intro h
    apply printed_none_of_not_crit
    have h1 := hb1.mpr h
    cases hc : pc1.crit with
    | false => rfl
    | true =>
      have h2 := ha1.mpr hc
      rw [h1] at h2
      exact absurd h2 (by decide)
  cases pc2 <;>
    simp [step, increment, State.worker, State.setWorker] at hstep <;>
    (try cases mtx <;> simp at hstep) <;>
    subst_vars <;>
    (try by_cases h5 : i2 < 5 <;> simp only [h5, if_true, if_false]) <;>
    simp_all [OutInv, written, State.worker, Worker.count, crit_cases, bumped_cases,
      printed_cases, lines_append, lines, line] <;>
    first
      | exact ⟨values_snoc _ _ _ (by omega) (by push_cast; omega),
          mainOut_nil _ (by omega)⟩
      | (obtain ⟨L0, h1, h2⟩ := ho2
         exact ⟨L0, h1, by simp [h2]⟩)
      | (obtain ⟨L0, h1, h2⟩ := ho2
         rw [mainOut_nil _ (by omega), h1, h2]
         simp [lines_append, lines, line])

theorem outInv_step {p : Proc} {s s1 : State} {L : List (Tid × Int)} (hinv : Inv s)
    (hout : OutInv s L) (hstep : step p s = some s1) : OutInv s1 (L ++ written p s) := by
  cases p with
  | main => exact outInv_main hinv hout hstep
  | worker t =>
    cases t with
    | t1 => exact outInv_t1 hinv hout hstep
    | t2 => exact outInv_t2 hinv hout hstep

end SmartPointer_3

namespace SmartPointer_3
open Threads

theorem reach (sch : List Proc) :
    ∀ s, run sch init = some s →
      Inv s ∧ OutInv s (increments sch init) ∧ ticks s = sch.length := by
  induction sch using List.reverseRecOn with
  | nil =>
    intro s h
    simp only [run, Option.some.injEq] at h
    subst h
    exact ⟨inv_init, outInv_init, rfl⟩
  | append_singleton sch p ih =>
    intro s h
    rw [run_snoc] at h
    cases hr : run sch init with
    | none => simp [hr] at h
    | some s0 =>
      rw [hr] at h
      have hstep : step p s0 = some s := by simpa using h
      obtain ⟨hi, ho, ht⟩ := ih s0 hr
      refine ⟨inv_step hi hstep, ?_, ?_⟩
      · rw [increments_snoc sch p init s0 s hr hstep]
        exact outInv_step hi ho hstep
      · rw [ticks_step hi hstep, ht]
        simp

theorem mainOut_begins {s : State} (hinv : Inv s) :
    ∃ rest, mainOut s.mainPc s.sharedData ++ rest = finalLine 10 := by
  by_cases h : 4 ≤ mainTicks s.mainPc
  · rw [(joined_facts hinv h).1]
    cases s.mainPc with
    | out1 => exact ⟨_, List.take_append_drop 1 (finalLine 10)⟩
    | out2 => exact ⟨_, List.take_append_drop 2 (finalLine 10)⟩
    | returned => exact ⟨[], List.append_nil _⟩
    | _ => exact ⟨finalLine 10, rfl⟩
  · rw [mainOut_nil _ (by omega)]
    exact ⟨finalLine 10, rfl⟩

theorem out_begins {s : State} {L : List (Tid × Int)} (hinv : Inv s) (hout : OutInv s L) :
    ∃ rest, s.out ++ rest = lines L ++ finalLine 10 := by
  obtain ⟨_, ho1, ho2, ho3⟩ := hout
  cases h1 : s.w1.pc.printed with
  | some j =>
    obtain ⟨L0, hL, ho⟩ := ho1 j h1
    refine ⟨(line .t1 s.sharedData).drop j ++ finalLine 10, ?_⟩
    rw [ho, hL, lines_append]
    simp only [lines, List.append_nil, List.append_assoc]
    rw [← List.append_assoc (List.take j _), List.take_append_drop]
  | none =>
    cases h2 : s.w2.pc.printed with
    | some j =>
      obtain ⟨L0, hL, ho⟩ := ho2 j h2
      refine ⟨(line .t2 s.sharedData).drop j ++ finalLine 10, ?_⟩
      rw [ho, hL, lines_append]
      simp only [lines, List.append_nil, List.append_assoc]
      rw [← List.append_assoc (List.take j _), List.take_append_drop]
    | none =>
      obtain ⟨rest, hrest⟩ := mainOut_begins hinv
      exact ⟨rest, by rw [ho3 h1 h2, List.append_assoc, hrest]⟩

theorem printing_holds_mtx {s : State} (hinv : Inv s) (t : Tid)
    (h : (s.worker t).pc = .out0 ∨ (s.worker t).pc = .out1 ∨ (s.worker t).pc = .out2
      ∨ (s.worker t).pc = .out3 ∨ (s.worker t).pc = .out4) : s.mtx = some t := by
  obtain ⟨_, h1, h2, _⟩ := hinv
  have hc : (s.worker t).pc.crit = true := by
    rcases h with h | h | h | h | h <;> rw [h] <;> rfl
  cases t
  · exact h1.1.mpr hc
  · exact h2.1.mpr hc

/-- C1. Along every schedule of `main`, `t1` and `t2` that the program can
follow: the execution has at most 109 steps; until `main` returns some
thread can always move (no deadlock), so every maximal execution ends with
`main` returned; once `main` is past both joins `*sharedData` is 10; and
when `main` has returned the execution had exactly 109 steps and the
output ends with `Valor final: 10`. -/
theorem locked_final_value (sch : List Proc) (s : State) (h : run sch init = some s) :
    sch.length ≤ 109
    ∧ (s.mainPc ≠ .returned → ∃ p, (step p s).isSome = true)
    ∧ (s.mainPc = .out0 ∨ s.mainPc = .out1 ∨ s.mainPc = .out2 ∨ s.mainPc = .returned →
        s.sharedData = 10)
    ∧ (s.mainPc = .returned →
        sch.length = 109 ∧ s.w1.pc = .done ∧ s.w2.pc = .done
        ∧ ∃ pre, s.out = pre ++ [.str "Valor final: ", .int 10, .endl]) := by
  obtain ⟨hinv, hout, ht⟩ := reach sch s h
  refine ⟨?_, progress hinv, ?_, ?_⟩
  · rw [← ht]
    exact ticks_le hinv
  · intro hpc
    apply (joined_facts hinv _).1
    rcases hpc with hpc | hpc | hpc | hpc <;> rw [hpc] <;> decide
  · intro hpc
    have hm : 4 ≤ mainTicks s.mainPc := by rw [hpc]; decide
    obtain ⟨hsd, _, d1, d2, e1, e2⟩ := joined_facts hinv hm
    refine ⟨?_, d1, d2, lines (increments sch init), ?_⟩
    · rw [← ht]
      simp [ticks, Worker.ticks, hpc, d1, d2, e1, e2, mainTicks, Pc.offset]
    · have h3 := hout.2.2.2 (by rw [d1]; rfl) (by rw [d2]; rfl)
      rw [h3, hpc, hsd]
      rfl

/-- Witness for C1: the schedule that runs `t1`, then `t2`, then the rest
of `main` is an execution ending with `main` returned and the value 10. -/
theorem locked_final_value_witness :
    ∃ s, run sequentialSchedule init = some s ∧ s.mainPc = .returned ∧ s.sharedData = 10 := by
  have h : run sequentialSchedule init
      = some ((run sequentialSchedule init).getD init) := by decide
  exact ⟨_, h, by decide, (locked_final_value _ _ h).2.2.1 (by decide)⟩

/-- C10. Along every schedule the program can follow, the writes to
`*sharedData` produce the values 1, 2, 3, .. in order, and the output is at
every moment a beginning of: one complete progress line per write, in the
order of the writes, each naming the thread that made the write and the
value that write produced, followed by the final line. A thread that is
between the first and the last insertion of its progress line holds `mtx`.
When `main` has returned there were exactly ten writes, of the values 1 to
10, and the output is exactly those ten progress lines followed by
`Valor final: 10`. -/
theorem locked_progress_lines (sch : List Proc) (s : State) (h : run sch init = some s) :
    (increments sch init).map Prod.snd
        = (List.range' 1 (increments sch init).length).map Int.ofNat
    ∧ (∃ rest, s.out ++ rest
        = lines (increments sch init) ++ [.str "Valor final: ", .int 10, .endl])
    ∧ (∀ t, (s.worker t).pc = .out0 ∨ (s.worker t).pc = .out1 ∨ (s.worker t).pc = .out2
        ∨ (s.worker t).pc = .out3 ∨ (s.worker t).pc = .out4 → s.mtx = some t)
    ∧ (s.mainPc = .returned →
        (increments sch init).map Prod.snd = [1, 2, 3, 4, 5, 6, 7, 8, 9, 10]
        ∧ s.out = lines (increments sch init) ++ [.str "Valor final: ", .int 10, .endl]) := by
  obtain ⟨hinv, hout, _⟩ := reach sch s h
  have hlen : (increments sch init).length = s.w1.count + s.w2.count := by
    have := congrArg List.length hout.1
    simpa using this
  refine ⟨?_, out_begins hinv hout, printing_holds_mtx hinv, ?_⟩
  · rw [hlen]
    exact hout.1
  · intro hpc
    have hm : 4 ≤ mainTicks s.mainPc := by rw [hpc]; decide
    obtain ⟨hsd, _, d1, d2, e1, e2⟩ := joined_facts hinv hm
    constructor
    · rw [hout.1]
      simp only [Worker.count, d1, d2, e1, e2]
      decide
    · have h3 := hout.2.2.2 (by rw [d1]; rfl) (by rw [d2]; rfl)
      rw [h3, hpc, hsd]
      rfl

/-- Witness for C10: a schedule in which the two workers take turns; the
lines alternate between the threads and count from 1 to 10. -/
theorem locked_progress_lines_witness :
    ∃ s, run alternatingSchedule init = some s
      ∧ increments alternatingSchedule init
          = [(.t2, 1), (.t1, 2), (.t2, 3), (.t1, 4), (.t2, 5), (.t1, 6), (.t2, 7), (.t1, 8),
             (.t2, 9), (.t1, 10)]
      ∧ ∃ rest, s.out ++ rest = lines (increments alternatingSchedule init)
          ++ [.str "Valor final: ", .int 10, .endl] := by
  have h : run alternatingSchedule init
      = some ((run alternatingSchedule init).getD init) := by decide
  exact ⟨_, h, by decide, (locked_progress_lines _ _ h).2.1⟩

end SmartPointer_3

/-! ## SmartPointer_4.cpp: the invariant holds along every schedule -/

namespace SmartPointer_4
open Threads

theorem bumped_cases4 :
    Pc.bumped .idle = 0 ∧ Pc.bumped .test = 0 ∧ Pc.bumped .inc = 0
    ∧ Pc.bumped .out0 = 1 ∧ Pc.bumped .out1 = 1 ∧ Pc.bumped .out2 = 1
    ∧ Pc.bumped .out3 = 1 ∧ Pc.bumped .out4 = 1 ∧ Pc.bumped .done = 0 := by
  decide

theorem offset_cases4 :
    Pc.offset .idle = 0 ∧ Pc.offset .test = 0 ∧ Pc.offset .inc = 1
    ∧ Pc.offset .out0 = 2 ∧ Pc.offset .out1 = 3 ∧ Pc.offset .out2 = 4
    ∧ Pc.offset .out3 = 5 ∧ Pc.offset .out4 = 6 ∧ Pc.offset .done = 1 := by
  decide

theorem mainTicks_cases4 :
    mainTicks .spawn1 = 0 ∧ mainTicks .spawn2 = 1 ∧ mainTicks .join1 = 2
    ∧ mainTicks .join2 = 3 ∧ mainTicks .out0 = 4 ∧ mainTicks .out1 = 5
    ∧ mainTicks .out2 = 6 ∧ mainTicks .returned = 7 := by
  decide

theorem mainOut_nil4 {pc : MainPc} (v : Int) (h : mainTicks pc < 5) : mainOut pc v = [] := by
  cases pc <;> simp [mainTicks_cases4] at h <;> rfl

theorem wrap32_small {v : Int} (h0 : 0 ≤ v) (h1 : v ≤ 10) : wrap32 v = v := by
  unfold wrap32
  omega

theorem inv_init4 : Inv init := by
  refine ⟨by decide, ?_, ?_, ?_, [], by decide⟩ <;>
    simp [WInv, mainOk, init, offset_cases4, mainTicks_cases4]

theorem count_le4 {w : Worker} (h : WInv w) : w.count ≤ 5 := by
  obtain ⟨h1, h2, _, _⟩ := h
  unfold Worker.count
  cases hpc : w.pc <;> simp [hpc, bumped_cases4, offset_cases4] at h2 ⊢ <;> omega

theorem inv_main4 {s s1 : State} (hinv : Inv s) (hstep : step .main s = some s1) :
    Inv s1 := by
  obtain ⟨sd, ⟨pc1, i1⟩, ⟨pc2, i2⟩, mpc, out⟩ := s
  have hc1 := count_le4 hinv.2.1
  have hc2 := count_le4 hinv.2.2.1
  simp only [Inv, WInv, mainOk, Worker.count] at hinv hc1 hc2
  obtain ⟨hv, ⟨ha1, ha2, ha3, ha4⟩, ⟨hb1, hb2, hb3, hb4⟩, ⟨hm1, hm2, hm3, hm4⟩, pre, hpre⟩ :=
    hinv
  cases mpc <;>
    simp [step, main] at hstep <;>
    (try obtain ⟨h1, h2⟩ := hstep) <;>
    subst_vars <;>
    simp_all [Inv, WInv, mainOk, Worker.count, bumped_cases4, offset_cases4,
      mainTicks_cases4, mainOut, finalLine]

theorem inv_t1_4 {s s1 : State} (hinv : Inv s) (hstep : step (.worker .t1) s = some s1) :
    Inv s1 := by
  obtain ⟨sd, ⟨pc1, i1⟩, ⟨pc2, i2⟩, mpc, out⟩ := s
  have hc1 := count_le4 hinv.2.1
  have hc2 := count_le4 hinv.2.2.1
  simp only [Inv, WInv, mainOk, Worker.count] at hinv hc1 hc2
  obtain ⟨hv, ⟨ha1, ha2, ha3, ha4⟩, ⟨hb1, hb2, hb3, hb4⟩, ⟨hm1, hm2, hm3, hm4⟩, pre, hpre⟩ :=
    hinv
  have hlt : mainTicks mpc < 4 := by
    by_contra hge
    have d1 := hm3 (by omega)
    have d2 := hm4 (by omega)
    simp [step, increment, State.worker, d1, d2] at hstep
  have hmo : ∀ v, mainOut mpc v = [] := fun v => mainOut_nil4 v (by omega)
  cases pc1 <;>
    simp [step, increment, State.worker, State.setWorker] at hstep <;>
    subst_vars <;>
    (try by_cases h5 : i1 < 5 <;> simp only [h5, if_true, if_false]) <;>
    simp_all [Inv, WInv, mainOk, Worker.count, bumped_cases4, offset_cases4] <;>
    first
      | omega
      | (rw [wrap32_small (by omega) (by omega)]; omega)

theorem inv_t2_4 {s s1 : State} (hinv : Inv s) (hstep : step (.worker .t2) s = some s1) :
    Inv s1 := by
  obtain ⟨sd, ⟨pc1, i1⟩, ⟨pc2, i2⟩, mpc, out⟩ := s
  have hc1 := count_le4 hinv.2.1
  have hc2 := count_le4 hinv.2.2.1
  simp only [Inv, WInv, mainOk, Worker.count] at hinv hc1 hc2
  obtain ⟨hv, ⟨ha1, ha2, ha3, ha4⟩, ⟨hb1, hb2, hb3, hb4⟩, ⟨hm1, hm2, hm3, hm4⟩, pre, hpre⟩ :=
    hinv
  have hlt : mainTicks mpc < 4 := by
    by_contra hge
    have d1 := hm3 (by omega)
    have d2 := hm4 (by omega)
    simp [step, increment, State.worker, d1, d2] at hstep
  have hmo : ∀ v, mainOut mpc v = [] := fun v => mainOut_nil4 v (by omega)
  cases pc2 <;>
    simp [step, increment, State.worker, State.setWorker] at hstep <;>
    subst_vars <;>
    (try by_cases h5 : i2 < 5 <;> simp only [h5, if_true, if_false]) <;>
    simp_all [Inv, WInv, mainOk, Worker.count, bumped_cases4, offset_cases4] <;>
    first
      | omega
      | (rw [wrap32_small (by omega) (by omega)]; omega)

theorem inv_step4 {p : Proc} {s s1 : State} (hinv : Inv s) (hstep : step p s = some s1) :
    Inv s1 := by
  cases p with
  | main => exact inv_main4 hinv hstep
  | worker t =>
    cases t with
    | t1 => exact inv_t1_4 hinv hstep
    | t2 => exact inv_t2_4 hinv hstep

theorem ticks_step4 {p : Proc} {s s1 : State} (hinv : Inv s) (hstep : step p s = some s1) :
    ticks s1 = ticks s + 1 := by
  obtain ⟨sd, ⟨pc1, i1⟩, ⟨pc2, i2⟩, mpc, out⟩ := s
  simp only [Inv, WInv, mainOk, Worker.count] at hinv
  obtain ⟨hv, ⟨ha1, ha2, ha3, ha4⟩, ⟨hb1, hb2, hb3, hb4⟩, ⟨hm1, hm2, hm3, hm4⟩, pre, hpre⟩ :=
    hinv
  cases p with
  | main =>
    cases mpc <;>
      simp [step, main] at hstep <;>
      (try obtain ⟨h1, h2⟩ := hstep) <;>
      subst_vars <;>
      simp_all [ticks, Worker.ticks, offset_cases4, mainTicks_cases4] <;>
      omega
  | worker t =>
    cases t with
    | t1 =>
      cases pc1 <;>
        simp [step, increment, State.worker, State.setWorker] at hstep <;>
        subst_vars <;>
        (try by_cases h5 : i1 < 5 <;> simp only [h5, if_true, if_false]) <;>
        simp [ticks, Worker.ticks, offset_cases4] <;>
        omega
    | t2 =>
      cases pc2 <;>
        simp [step, increment, State.worker, State.setWorker] at hstep <;>
        subst_vars <;>
        (try by_cases h5 : i2 < 5 <;> simp only [h5, if_true, if_false]) <;>
        simp [ticks, Worker.ticks, offset_cases4] <;>
        omega

theorem run_snoc4 (sch : List Proc) (p : Proc) (s : State) :
    run (sch ++ [p]) s = (run sch s).bind (step p) := by
  induction sch generalizing s with
  | nil => simp [run]
  | cons q sch ih =>
    simp only [List.cons_append, run]
    cases step q s with
    | none => rfl
    | some s1 => simpa using ih s1

theorem worker_ticks_le4 {w : Worker} (h : WInv w) : w.ticks ≤ 36 := by
  obtain ⟨h1, h2, _, _⟩ := h
  unfold Worker.ticks
  cases hpc : w.pc <;> simp [hpc, offset_cases4] at h2 ⊢ <;> omega

theorem ticks_le4 {s : State} (hinv : Inv s) : ticks s ≤ 79 := by
  obtain ⟨_, h1, h2, _⟩ := hinv
  have a := worker_ticks_le4 h1
  have b := worker_ticks_le4 h2
  have c : mainTicks s.mainPc ≤ 7 := by cases s.mainPc <;> decide
  unfold ticks
  omega

theorem joined_facts4 {s : State} (hinv : Inv s) (h : 4 ≤ mainTicks s.mainPc) :
    s.sharedData = 10 ∧ s.w1.pc = .done ∧ s.w2.pc = .done ∧ s.w1.i = 5 ∧ s.w2.i = 5 := by
  obtain ⟨hv, ⟨_, _, ha3, _⟩, ⟨_, _, hb3, _⟩, ⟨_, _, hm3, hm4⟩, _⟩ := hinv
  have d1 := hm3 (by omega)
  have d2 := hm4 h
  have e1 := ha3 d1
  have e2 := hb3 d2
  refine ⟨?_, d1, d2, e1, e2⟩
  simp [hv, Worker.count, d1, d2, e1, e2, bumped_cases4]

theorem progress4 {s : State} (hinv : Inv s) (hne : s.mainPc ≠ .returned) :
    ∃ p, (step p s).isSome = true := by
  obtain ⟨sd, ⟨pc1, i1⟩, ⟨pc2, i2⟩, mpc, out⟩ := s
  simp only [Inv, WInv, mainOk, Worker.count] at hinv
  obtain ⟨hv, ⟨ha1, ha2, ha3, ha4⟩, ⟨hb1, hb2, hb3, hb4⟩, ⟨hm1, hm2, hm3, hm4⟩, pre, hpre⟩ :=
    hinv
  by_cases hmain : (step .main ⟨sd, ⟨pc1, i1⟩, ⟨pc2, i2⟩, mpc, out⟩).isSome = true
  · exact ⟨.main, hmain⟩
  by_cases hw1 : (step (.worker .t1) ⟨sd, ⟨pc1, i1⟩, ⟨pc2, i2⟩, mpc, out⟩).isSome = true
  · exact ⟨.worker .t1, hw1⟩
  refine ⟨.worker .t2, ?_⟩
  cases mpc <;> simp [step, main] at hmain hne <;>
    cases pc1 <;> simp_all [step, increment, State.worker, State.setWorker,
      mainTicks_cases4] <;>
    cases pc2 <;> simp_all

theorem reach4 (sch : List Proc) :
    ∀ s, run sch init = some s → Inv s ∧ ticks s = sch.length := by
  induction sch using List.reverseRecOn with
  | nil =>
    intro s h
    simp only [run, Option.some.injEq] at h
    subst h
    exact ⟨inv_init4, rfl⟩
  | append_singleton sch p ih =>
    intro s h
    rw [run_snoc4] at h
    cases hr : run sch init with
    | none => simp [hr] at h
    | some s0 =>
      rw [hr] at h
      have hstep : step p s0 = some s := by simpa using h
      obtain ⟨hi, ht⟩ := ih s0 hr
      refine ⟨inv_step4 hi hstep, ?_⟩
      rw [ticks_step4 hi hstep, ht]
      simp

/-- C2. Along every schedule of `main`, `t1` and `t2` that the program can
follow, each `(*sharedData)++` being one indivisible step and each read for
a progress line a separate step: the execution has at most 79 steps; until
`main` returns some thread can always move, so every maximal execution ends
with `main` returned; once `main` is past both joins the atomic holds 10;
and when `main` has returned the execution had exactly 79 steps and the
output ends with `Valor final: 10`. -/
theorem atomic_final_value (sch : List Proc) (s : State) (h : run sch init = some s) :
    sch.length ≤ 79
    ∧ (s.mainPc ≠ .returned → ∃ p, (step p s).isSome = true)
    ∧ (s.mainPc = .out0 ∨ s.mainPc = .out1 ∨ s.mainPc = .out2 ∨ s.mainPc = .returned →
        s.sharedData = 10)
    ∧ (s.mainPc = .returned →
        sch.length = 79 ∧ s.w1.pc = .done ∧ s.w2.pc = .done
        ∧ ∃ pre, s.out = pre ++ [.str "Valor final: ", .int 10, .endl]) := by
  obtain ⟨hinv, ht⟩ := reach4 sch s h
  refine ⟨?_, progress4 hinv, ?_, ?_⟩
  · rw [← ht]
    exact ticks_le4 hinv
  · intro hpc
    apply (joined_facts4 hinv _).1
    rcases hpc with hpc | hpc | hpc | hpc <;> rw [hpc] <;> decide
  · intro hpc
    have hm : 4 ≤ mainTicks s.mainPc := by rw [hpc]; decide
    obtain ⟨hsd, d1, d2, e1, e2⟩ := joined_facts4 hinv hm
    obtain ⟨pre, hpre⟩ := hinv.2.2.2.2
    refine ⟨?_, d1, d2, pre, ?_⟩
    · rw [← ht]
      simp [ticks, Worker.ticks, hpc, d1, d2, e1, e2, mainTicks, Pc.offset]
    · rw [hpre, hpc, hsd]
      rfl

/-- Witness for C2: with the two workers moving in lock step, both
increments land before either read and the insertions of the two threads
alternate, so the first two progress lines are interleaved and both show
2; the final value is still 10. -/
theorem atomic_final_value_witness :
    ∃ s, run lockstepSchedule init = some s ∧ s.mainPc = .returned
      ∧ s.out.take 10
          = [.str "Thread ", .str "Thread ", .id .t1, .id .t2, .str " incrementa a ",
             .str " incrementa a ", .int 2, .int 2, .endl, .endl]
      ∧ s.sharedData = 10 := by
  have h : run lockstepSchedule init
      = some ((run lockstepSchedule init).getD init) := by decide
  exact ⟨_, h, by decide, by decide, (atomic_final_value _ _ h).2.2.1 (by decide)⟩

end SmartPointer_4
